import Mathlib

/-!
A shallow embedding of the tiptap-starter-kit code-block node extension
(src/nodes/code-block.ts) and of the FloatMenuView popover controller
(the float-menu view source file), with theorems checking the stated
properties of the specification against these definitions.
-/

/-- JavaScript coercion `x || ""` applied to an optional string:
`undefined` and the empty string are both falsy, so both map to the
empty string; every other string maps to itself. -/
def jsTextOrEmpty : Option String → String
  | none => ""
  | some s => if s = "" then "" else s

/-- External lightweight-markup code node: type tag, language tag and
raw text value. -/
structure MdNode where
  type : String
  lang : String
  value : String
deriving DecidableEq, Repr

/-- Attributes of the code-block document node: the `language` attribute
declared by addAttributes, plus any other attributes the node carries,
kept abstract as key-value pairs. -/
structure Attrs where
  language : String
  others : List (String × String)
deriving DecidableEq, Repr

/-- An editor document node: its type name, its attributes, and its
content as the list of the texts of its text children. -/
structure PMNode where
  typeName : String
  attrs : Attrs
  content : List String
deriving DecidableEq, Repr

/-- The name of the code-block node type. -/
def codeBlockName : String := "codeBlock"

/-- The parser match predicate from addStorage: the external node has
type "code". -/
def parserMatch (n : MdNode) : Bool := n.type == "code"

/-- Modelled from the spec: the markdown parser state helpers `openNode`,
`addText` and `closeNode` used by parser.apply live in
src/extensions/markdown, which is not among the provided sources. Per
the spec, parsing produces one editor document node carrying the
external node language and its text content; `addText` follows the
editor convention that empty text contributes no text child. -/
def parserApply (n : MdNode) : PMNode :=
  { typeName := codeBlockName
    attrs := { language := n.lang, others := [] }
    content := if n.value = "" then [] else [n.value] }

/-- The serializer match predicate from addStorage: the document node
type name equals the extension name. -/
def serializerMatch (n : PMNode) : Bool := n.typeName == codeBlockName

/-- The serializer from addStorage: emits an external node of type
"code" whose value is `node.content.firstChild?.text || ""` and whose
lang is the node language attribute. -/
def serializerApply (n : PMNode) : MdNode :=
  { type := "code"
    value := jsTextOrEmpty n.content.head?
    lang := n.attrs.language }

/-- The text content of a node as the spec words it: the first text
child text, or the empty string when there is none. -/
def specTextContent (n : PMNode) : String := (n.content.head?).getD ""

/-- The node view update hook from addNodeView: given the type name of
this extension, the current select control value and the updated node,
returns the new select value and the boolean the hook returns. A node
of a different type is rejected with false; otherwise the select value
is set to the node language attribute and the update is accepted. -/
def nodeViewUpdate (thisTypeName : String) (selectValue : String) (updatedNode : PMNode) :
    String × Bool :=
  if updatedNode.typeName ≠ thisTypeName then
    (selectValue, false)
  else
    (updatedNode.attrs.language, true)

/-- A setNodeMarkup transaction with the node type left unchanged: the
position of the node and the replacement attributes. -/
structure SetNodeMarkupTx where
  pos : Nat
  attrs : Attrs
deriving DecidableEq, Repr

/-- The language select change listener from addNodeView: given
editability, the getPos accessor (a function in the node view API,
modelled as an optional position to keep the typeof check), the node the
view was built for and the value the user selected, returns the select
control value after the handler and the list of dispatched transactions. -/
def languageChange (isEditable : Bool) (getPos : Option Nat) (node : PMNode)
    (selected : String) : String × List SetNodeMarkupTx :=
  if !isEditable then
    (node.attrs.language, [])
  else
    match getPos with
    | some p =>
      (selected, [{ pos := p, attrs := { language := selected, others := node.attrs.others } }])
    | none => (selected, [])

/-- Replace the node at a given position of a document by the image of a
function, leaving all other nodes in place. -/
def modifyAt (f : PMNode → PMNode) : List PMNode → Nat → List PMNode
  | [], _ => []
  | n :: rest, 0 => f n :: rest
  | n :: rest, p + 1 => n :: modifyAt f rest p

/-- Apply one setNodeMarkup transaction to a document: the attributes of
the node at the transaction position are replaced, its type name and its
content are kept. -/
def applyTx (doc : List PMNode) (tx : SetNodeMarkupTx) : List PMNode :=
  modifyAt (fun n => { n with attrs := tx.attrs }) doc tx.pos

/-- Apply a list of dispatched transactions in order. -/
def applyTxs (doc : List PMNode) (txs : List SetNodeMarkupTx) : List PMNode :=
  txs.foldl applyTx doc

/-- One editor command, as dispatched by the keyboard shortcut handler. -/
inductive EditorCommand where
  | insertContent (s : String)
deriving DecidableEq, Repr

/-- The Tab handler from addKeyboardShortcuts: when the code-block node
is active it inserts the two-space string and claims the key; otherwise
it dispatches nothing and returns false. -/
def tabShortcut (isActive : Bool) : Bool × List EditorCommand :=
  if isActive then
    (true, [EditorCommand.insertContent "  "])
  else
    (false, [])

/-- The copy button click listener from addNodeView: the string written
to the clipboard is `node.content.firstChild?.text || ""`. -/
def copyClick (node : PMNode) : String :=
  jsTextOrEmpty node.content.head?

/-- C1: parsing the external code node and then serializing it yields the
same pair of language tag and text value; the round trip is lossless. -/
theorem parse_serialize_roundtrip (lang text : String) :
    serializerApply (parserApply { type := "code", lang := lang, value := text }) =
      { type := "code", lang := lang, value := text } := by
  unfold serializerApply parserApply jsTextOrEmpty
  by_cases h : text = "" <;> simp [h]

/-- Looking up the same position after modifying it yields the image of
the original node under the modification. -/
theorem modifyAt_getElem_self (f : PMNode → PMNode) (l : List PMNode) (p : Nat) :
    (modifyAt f l p)[p]? = (l[p]?).map f := by
  induction l generalizing p with
  | nil => simp [modifyAt]
  | cons n rest ih =>
    cases p with
    | zero => simp [modifyAt]
    | succ q => simpa [modifyAt] using ih q

/-- Looking up any other position after modifying one yields the
original node there. -/
theorem modifyAt_getElem_ne (f : PMNode → PMNode) (l : List PMNode) (p q : Nat)
    (h : q ≠ p) : (modifyAt f l p)[q]? = l[q]? := by
  induction l generalizing p q with
  | nil => simp [modifyAt]
  | cons n rest ih =>
    cases p with
    | zero =>
      cases q with
      | zero => exact absurd rfl h
      | succ r => simp [modifyAt]
    | succ pp =>
      cases q with
      | zero => simp [modifyAt]
      | succ r =>
        simpa [modifyAt] using ih pp r (fun hh => h (by rw [hh]))

/-- C2: the node view update hook returns false exactly when the updated
node type differs from the code-block type; on a node of the matching
type it sets the select value to the node language attribute and
returns true. -/
theorem nodeView_update_spec (sel : String) (n : PMNode) :
    ((nodeViewUpdate codeBlockName sel n).2 = false ↔ n.typeName ≠ codeBlockName) ∧
    (n.typeName = codeBlockName →
      nodeViewUpdate codeBlockName sel n = (n.attrs.language, true)) := by
  unfold nodeViewUpdate
  by_cases h : n.typeName = codeBlockName <;> simp [h]

/-- Witness for C2 at a concrete matching node. -/
theorem nodeView_update_spec_witness :
    nodeViewUpdate codeBlockName "plaintext"
      { typeName := codeBlockName
        attrs := { language := "rust", others := [] }
        content := [] } = ("rust", true) :=
  (nodeView_update_spec "plaintext"
    { typeName := codeBlockName
      attrs := { language := "rust", others := [] }
      content := [] }).2 rfl

/-- C5: with a non-editable editor the change listener dispatches no
transaction, so the document is unchanged, and the select control value
is reset to the node current language attribute. -/
theorem languageChange_readonly (getPos : Option Nat) (node : PMNode)
    (selected : String) (doc : List PMNode) :
    (languageChange false getPos node selected).1 = node.attrs.language ∧
    applyTxs doc (languageChange false getPos node selected).2 = doc := by
  constructor <;> rfl

/-- C6: with an editable editor and an available position, the change
listener dispatches exactly one transaction; applying it gives the node
at that position the selected language while keeping its type name, its
other attributes and its content, and leaves every other position of
the document unchanged. -/
theorem languageChange_editable (p : Nat) (node : PMNode) (selected : String)
    (doc : List PMNode) (h : doc[p]? = some node) :
    (languageChange true (some p) node selected).1 = selected ∧
    (languageChange true (some p) node selected).2.length = 1 ∧
    (applyTxs doc (languageChange true (some p) node selected).2)[p]? =
      some { typeName := node.typeName
             attrs := { language := selected, others := node.attrs.others }
             content := node.content } ∧
    ∀ q : Nat, q ≠ p →
      (applyTxs doc (languageChange true (some p) node selected).2)[q]? = doc[q]? := by
  have e : languageChange true (some p) node selected =
      (selected,
        [{ pos := p, attrs := { language := selected, others := node.attrs.others } }]) := rfl
  rw [e]
  refine ⟨rfl, rfl, ?_, ?_⟩
  · show (applyTx doc _)[p]? = _
    unfold applyTx
    rw [modifyAt_getElem_self, h]
    rfl
  · intro q hq
    show (applyTx doc _)[q]? = _
    unfold applyTx
    exact modifyAt_getElem_ne _ _ _ _ hq

/-- Witness for C6: a one-node document, position 0, language changed
from plaintext to rust. -/
theorem languageChange_editable_witness :
    (applyTxs
      [{ typeName := codeBlockName
         attrs := { language := "plaintext", others := [] }
         content := ["x"] }]
      (languageChange true (some 0)
        { typeName := codeBlockName
          attrs := { language := "plaintext", others := [] }
          content := ["x"] } "rust").2)[0]? =
      some { typeName := codeBlockName
             attrs := { language := "rust", others := [] }
             content := ["x"] } :=
  (languageChange_editable 0
    { typeName := codeBlockName
      attrs := { language := "plaintext", others := [] }
      content := ["x"] } "rust"
    [{ typeName := codeBlockName
       attrs := { language := "plaintext", others := [] }
       content := ["x"] }] rfl).2.2.1

/-- C7: when the code-block node is active the Tab handler inserts
exactly two space characters and returns true; otherwise it dispatches
nothing and returns false. -/
theorem tabShortcut_spec :
    tabShortcut true = (true, [EditorCommand.insertContent (String.mk [' ', ' '])]) ∧
    tabShortcut false = (false, []) := by
  constructor <;> rfl

/-- C8: the copy click listener writes to the clipboard exactly the node
text content as the spec words it, the first text child text or the
empty string when there is none; in particular a node with text x=1
yields a clipboard write of exactly x=1. -/
theorem copyClick_spec (n : PMNode) :
    copyClick n = specTextContent n ∧
    copyClick { typeName := codeBlockName
                attrs := { language := "plaintext", others := [] }
                content := ["x=1"] } = "x=1" := by
  constructor
  · cases hc : n.content with
    | nil => simp [copyClick, specTextContent, jsTextOrEmpty, hc]
    | cons s rest =>
      by_cases hs : s = "" <;>
        simp [copyClick, specTextContent, jsTextOrEmpty, hc, hs]
  · rfl

/-- C9: serializing any document node produces an external code node
whose lang field is the node language attribute and whose value field is
the first text child text, or the empty string when there is none. -/
theorem serializer_spec (n : PMNode) :
    (serializerApply n).type = "code" ∧
    (serializerApply n).lang = n.attrs.language ∧
    (serializerApply n).value = specTextContent n := by
  refine ⟨rfl, rfl, ?_⟩
  cases hc : n.content with
  | nil => simp [serializerApply, specTextContent, jsTextOrEmpty, hc]
  | cons s rest =>
    by_cases hs : s = "" <;>
      simp [serializerApply, specTextContent, jsTextOrEmpty, hc, hs]

/-- Editor state as the float menu skip check observes it: the document
and the selection, each compared by the host framework structural
equality, modelled as plain equality on abstract identifiers. -/
structure EState where
  doc : Nat
  selection : Nat
deriving DecidableEq, Repr

/-- Observable steps of one FloatMenuView.update call, in order. -/
inductive FMEvent where
  | evalPredicate
  | onUpdateCall
  | setRect
  | hidePopover
  | showPopover
deriving DecidableEq, Repr

/-- Configuration of a FloatMenuView as update consumes it: the optional
visibility predicate and whether an onUpdate callback was supplied. -/
structure FMOptions where
  showPred : Option (EState → Bool)
  hasOnUpdate : Bool

/-- The skip condition of FloatMenuView.update: the view is composing,
or an old state was supplied whose doc and selection both equal the
current ones. -/
def fmSkip (composing : Bool) (state : EState) (oldState : Option EState) : Bool :=
  composing ||
    (match oldState with
     | some o => decide (o.doc = state.doc) && decide (o.selection = state.selection)
     | none => false)

/-- FloatMenuView.update as the ordered list of its observable steps:
nothing when skipped; otherwise the optional-chained predicate call
(absent predicate means no call and a falsy result, so hide), then on a
true predicate the optional onUpdate call, the anchor rect reset and the
show. -/
def fmUpdate (opts : FMOptions) (composing : Bool) (state : EState)
    (oldState : Option EState) : List FMEvent :=
  if fmSkip composing state oldState then
    []
  else
    match opts.showPred with
    | none => [FMEvent.hidePopover]
    | some p =>
      if p state then
        FMEvent.evalPredicate ::
          ((if opts.hasOnUpdate then [FMEvent.onUpdateCall] else []) ++
            [FMEvent.setRect, FMEvent.showPopover])
      else
        [FMEvent.evalPredicate, FMEvent.hidePopover]

/-- C3: update performs no observable step when the view is composing,
or when an old state is supplied whose doc and selection both equal
those of the current state. -/
theorem fmUpdate_skip (opts : FMOptions) (composing : Bool) (state : EState)
    (oldState : Option EState)
    (h : composing = true ∨
      ∃ o, oldState = some o ∧ o.doc = state.doc ∧ o.selection = state.selection) :
    fmUpdate opts composing state oldState = [] := by
  have hs : fmSkip composing state oldState = true := by
    rcases h with hc | ⟨o, ho, hd, hsel⟩
    · simp [fmSkip, hc]
    · simp [fmSkip, ho, hd, hsel]
  simp [fmUpdate, hs]

/-- Witness for C3: a composing view at a concrete state skips. -/
theorem fmUpdate_skip_witness :
    fmUpdate { showPred := some (fun _ => true), hasOnUpdate := true } true
      { doc := 0, selection := 0 } none = [] :=
  fmUpdate_skip { showPred := some (fun _ => true), hasOnUpdate := true } true
    { doc := 0, selection := 0 } none (Or.inl rfl)

/-- C4: when the skip does not apply, a missing predicate or a false
predicate result hides the popover and neither calls onUpdate nor shows;
a true predicate result calls the predicate, calls onUpdate exactly when
one is supplied, resets the anchor rect, shows the popover and never
hides it. -/
theorem fmUpdate_visibility (opts : FMOptions) (composing : Bool) (state : EState)
    (oldState : Option EState) (h : fmSkip composing state oldState = false) :
    (opts.showPred = none →
      fmUpdate opts composing state oldState = [FMEvent.hidePopover]) ∧
    (∀ p, opts.showPred = some p → p state = false →
      fmUpdate opts composing state oldState =
        [FMEvent.evalPredicate, FMEvent.hidePopover]) ∧
    (∀ p, opts.showPred = some p → p state = true →
      FMEvent.evalPredicate ∈ fmUpdate opts composing state oldState ∧
      (opts.hasOnUpdate = true →
        FMEvent.onUpdateCall ∈ fmUpdate opts composing state oldState) ∧
      FMEvent.setRect ∈ fmUpdate opts composing state oldState ∧
      FMEvent.showPopover ∈ fmUpdate opts composing state oldState ∧
      FMEvent.hidePopover ∉ fmUpdate opts composing state oldState) := by
  refine ⟨?_, ?_, ?_⟩
  · intro hn
    simp [fmUpdate, h, hn]
  · intro p hp hf
    simp [fmUpdate, h, hp, hf]
  · intro p hp ht
    have e : fmUpdate opts composing state oldState =
        FMEvent.evalPredicate ::
          ((if opts.hasOnUpdate then [FMEvent.onUpdateCall] else []) ++
            [FMEvent.setRect, FMEvent.showPopover]) := by
      simp [fmUpdate, h, hp, ht]
    rw [e]
    refine ⟨by simp, ?_, ?_, ?_, ?_⟩
    · intro hu
      simp [hu]
    · by_cases hu : opts.hasOnUpdate <;> simp [hu]
    · by_cases hu : opts.hasOnUpdate <;> simp [hu]
    · by_cases hu : opts.hasOnUpdate <;> simp [hu]

/-- Witness for C4: a true predicate with an onUpdate callback shows the
popover at a concrete state. -/
theorem fmUpdate_visibility_witness :
    FMEvent.showPopover ∈
      fmUpdate { showPred := some (fun _ => true), hasOnUpdate := true } false
        { doc := 0, selection := 0 } none :=
  ((fmUpdate_visibility { showPred := some (fun _ => true), hasOnUpdate := true } false
      { doc := 0, selection := 0 } none rfl).2.2
    (fun _ => true) rfl rfl).2.2.2.1

/-- C10: without an old state and without composing, the skip check is
false, so update always proceeds and evaluates the configured visibility
predicate, whatever the current state is. -/
theorem fmUpdate_no_old_state (opts : FMOptions) (state : EState) :
    fmSkip false state none = false ∧
    (∀ p, opts.showPred = some p →
      FMEvent.evalPredicate ∈ fmUpdate opts false state none) := by
  refine ⟨rfl, ?_⟩
  intro p hp
  by_cases ht : p state = true
  · simp [fmUpdate, fmSkip, hp, ht]
  · simp [fmUpdate, fmSkip, hp, ht]

/-- Witness for C10: a concrete predicate is evaluated at a concrete
state when no old state is supplied. -/
theorem fmUpdate_no_old_state_witness :
    FMEvent.evalPredicate ∈
      fmUpdate { showPred := some (fun _ => false), hasOnUpdate := false } false
        { doc := 3, selection := 4 } none :=
  (fmUpdate_no_old_state { showPred := some (fun _ => false), hasOnUpdate := false }
    { doc := 3, selection := 4 }).2 (fun _ => false) rfl
